import Mathlib

set_option autoImplicit false

namespace RbiApi

/-!
Shallow embedding of the RBI lookup service (src/app/rbi_api.py).

Spreadsheet cell values are modelled by `Value`: pandas missing values
(`NaN` / `None`) become `Value.na`, Python strings become `Value.str`,
Python ints `Value.int`, and Python floats are modelled as exact
rationals `Value.float`.  Python exceptions are modelled by `Except`
with the error type `PyErr`, which distinguishes `HTTPException`
(status code and detail) from every other exception class.
The network, the HTML link scraping and the spreadsheet parser are
external collaborators; they enter the model as an explicit
environment (`Env`), and every call to one of them is logged in an
effect trace (`Effect`).
-/

/-- A Python/pandas cell value. -/
inductive Value where
  | na
  | str (s : String)
  | int (n : Int)
  | float (q : ℚ)
  deriving DecidableEq, Repr, Inhabited

/-- `pd.isna`: true exactly on the missing value. -/
def isNA : Value → Bool
  | .na => true
  | _ => false

/-- The whitespace characters removed by Python `str.strip()`. -/
def isSpace (c : Char) : Bool :=
  c = ' ' || c = '\t' || c = '\n' || c = '\r' || c.toNat = 11 || c.toNat = 12

/-- `str.strip()` on a character list: drop whitespace from both ends. -/
def stripChars (l : List Char) : List Char :=
  ((l.dropWhile isSpace).reverse.dropWhile isSpace).reverse

/-- Python `str.strip()`. -/
def pyStrip (s : String) : String := ⟨stripChars s.data⟩

/-- Python `str.lower()` (ASCII model). -/
def pyLower (s : String) : String := ⟨s.data.map Char.toLower⟩

/-- Python `str.upper()` (ASCII model). -/
def pyUpper (s : String) : String := ⟨s.data.map Char.toUpper⟩

/-- Python substring test `needle in hay` on character lists. -/
def listInfixOf (needle : List Char) : List Char → Bool
  | [] => needle.isEmpty
  | c :: t => needle.isPrefixOf (c :: t) || listInfixOf needle t

/-- Python `needle in hay` for strings. -/
def strContains (hay needle : String) : Bool := listInfixOf needle.data hay.data

/-- Numeric value of a digit string (most significant first). -/
def digitsVal (l : List Char) : Nat :=
  l.foldl (fun a c => 10 * a + (c.toNat - 48)) 0

/-- `10 ^ n` by structural recursion (kernel-friendly). -/
def pow10 : Nat → Nat
  | 0 => 1
  | n + 1 => 10 * pow10 n

/-- Split a character list at the first dot: `(before, some after)` if a
dot occurs, `(l, none)` otherwise.  `before` never contains a dot. -/
def dotSplit : List Char → List Char × Option (List Char)
  | [] => ([], none)
  | c :: t =>
    if c = '.' then ([], some t)
    else (c :: (dotSplit t).1, (dotSplit t).2)

/-- The rational `± (A + B / 10 ^ |b|)` denoted by sign, integer digits
`a` and fraction digits `b`, built with `Rat.divInt` so that it reduces
in the kernel. -/
def mkNum (neg : Bool) (a b : List Char) : ℚ :=
  let n : Int := Int.ofNat (digitsVal a * pow10 b.length + digitsVal b)
  Rat.divInt (if neg then -n else n) (Int.ofNat (pow10 b.length))

/-- Core of Python `float(string)` on an already-stripped character
list: optional sign, then digits with at most one dot and at least one
digit overall (exponents and underscores are out of the model). -/
def parseCore (l : List Char) : Option ℚ :=
  let neg : Bool := l.head? == some '-'
  let l1 : List Char := if l.head? = some '-' ∨ l.head? = some '+' then l.tail else l
  match dotSplit l1 with
  | (a, none) =>
    if a ≠ [] ∧ a.all Char.isDigit then some (mkNum neg a []) else none
  | (a, some b) =>
    if (a ++ b) ≠ [] ∧ a.all Char.isDigit ∧ b.all Char.isDigit then
      some (mkNum neg a b)
    else none

/-- Python `float(s)` for a string argument (strips whitespace first);
`none` models the `ValueError`. -/
def parseFloatStr (s : String) : Option ℚ := parseCore (stripChars s.data)

/-- Rendering of a float by Python `str`: integer-valued floats get a
trailing `.0`; other rationals use a `num/den` stand-in (the binary
shortest-repr of CPython is outside the model, and no claim depends on
its exact digits). -/
def floatRepr (q : ℚ) : String :=
  if q.den = 1 then toString q.num ++ ".0" else toString q.num ++ "/" ++ toString q.den

/-- Python `str(x)` (pandas `astype(str)` renders `NaN` as `"nan"`). -/
def pyStr : Value → String
  | .na => "nan"
  | .str s => s
  | .int n => toString n
  | .float q => floatRepr q

/-- Python `float(x)` for a cell value; `none` models the exception. -/
def pyFloat : Value → Option ℚ
  | .na => none
  | .str s => parseFloatStr s
  | .int n => some ((n : ℤ) : ℚ)
  | .float q => some q

/-- Python `int(f)` on a float: truncation toward zero. -/
def pyTrunc (q : ℚ) : Int := Int.tdiv q.num (Int.ofNat q.den)

/-- The check `s.endswith(".0")`. -/
def endsWithDot0 (s : String) : Bool :=
  match s.data.reverse with
  | '0' :: '.' :: _ => true
  | _ => false

/-- `coerce_number_like` (src/app/rbi_api.py lines 107-122): missing
values become `""`; a value whose float parse is integer-valued becomes
a Python int; otherwise the trimmed string form is returned, except
that a trimmed form ending in `.0` is re-parsed and truncated. -/
def coerce_number_like (x : Value) : Value :=
  if isNA x then .str ""
  else
    let viaFloat : Option Value :=
      match pyFloat x with
      | some f => if f.den = 1 then some (.int (pyTrunc f)) else none
      | none => none
    match viaFloat with
    | some r => r
    | none =>
      let s := pyStrip (pyStr x)
      if endsWithDot0 s then
        match parseFloatStr s with
        | some f => .int (pyTrunc f)
        | none => .str s
      else .str s

/-- `find_ifsc_column` (lines 75-80): exact case-insensitive match on
`"ifsc"` first, then the first column containing `"ifsc"`. -/
def find_ifsc_column (cols : List String) : Option String :=
  match cols.filter (fun c => pyLower (pyStrip c) == "ifsc") with
  | e :: _ => some e
  | [] => (cols.filter (fun c => strContains (pyLower (pyStrip c)) "ifsc")).head?

/-- `find_bank_column` (lines 82-87): exact case-insensitive match on
`"bank"` first, then the first column containing `"bank"`. -/
def find_bank_column (cols : List String) : Option String :=
  match cols.filter (fun c => pyLower (pyStrip c) == "bank") with
  | e :: _ => some e
  | [] => (cols.filter (fun c => strContains (pyLower (pyStrip c)) "bank")).head?

/-- `OUT_KEYS` (line 90): the fixed output schema, in order. -/
def OUT_KEYS : List String :=
  ["BANK", "IFSC", "BRANCH", "ADDRESS", "CITY1", "CITY2", "STATE", "STD CODE", "PHONE"]

/-- `CANON_MAP` (lines 92-105), in the source's iteration order. -/
def CANON_MAP : List (String × String) :=
  [("bank", "BANK"), ("bank name", "BANK"),
   ("ifsc", "IFSC"), ("ifsc code", "IFSC"),
   ("branch", "BRANCH"), ("branch name", "BRANCH"),
   ("address", "ADDRESS"), ("address1", "ADDRESS"), ("address line", "ADDRESS"),
   ("city", "CITY1"), ("city1", "CITY1"), ("city 1", "CITY1"),
   ("city2", "CITY2"), ("city 2", "CITY2"),
   ("centre", "CITY1"), ("district", "CITY2"),
   ("state", "STATE"),
   ("std code", "STD CODE"), ("std", "STD CODE"), ("stdcode", "STD CODE"),
   ("phone", "PHONE"), ("phone no", "PHONE"), ("phone number", "PHONE"),
   ("telephone", "PHONE"), ("telephone no", "PHONE"),
   ("contact", "PHONE"), ("contact no", "PHONE"), ("mobile", "PHONE")]

/-- `lk in CANON_MAP` / `CANON_MAP[lk]`. -/
def canonLookup (lk : String) : Option String :=
  (CANON_MAP.find? (fun p => p.1 == lk)).map (fun p => p.2)

/-- `str(k).strip().lower()` applied to a raw dict key. -/
def normKey (k : String) : String := pyLower (pyStrip k)

/-- A Python dict with string keys, modelled as an insertion-ordered
association list with unique keys. -/
abbrev Row := List (String × Value)

/-- Keys of a dict, in order. -/
def keysOf (o : Row) : List String := o.map (fun p => p.1)

/-- Dict read `o[k]` (all reads in the source hit existing keys; the
default `""` is never observable). -/
def getOut (o : Row) (k : String) : Value :=
  match o.find? (fun p => p.1 == k) with
  | some p => p.2
  | none => .str ""

/-- Dict write `o[k] = v`: overwrite in place if the key exists
(keeping its position, as CPython dicts do), else append. -/
def setOut (o : Row) (k : String) (v : Value) : Row :=
  if o.any (fun p => p.1 == k) then
    o.map (fun p => if p.1 == k then (k, v) else p)
  else o ++ [(k, v)]

/-- The dict comprehension of line 125:
`{str(k).strip().lower(): v for k, v in raw.items()}`. -/
def buildTmp (raw : Row) : Row :=
  raw.foldl (fun acc kv => setOut acc (normKey kv.1) kv.2) []

/-- `{k: "" for k in OUT_KEYS}` (line 126). -/
def outInit : Row := OUT_KEYS.map (fun k => (k, Value.str ""))

/-- The loop body of lines 127-129: write `v` (with `NaN` replaced by
`""`) to the canonical field of `lk`, if `lk` is in `CANON_MAP`. -/
def applyCanon (out : Row) (kv : String × Value) : Row :=
  match canonLookup kv.1 with
  | some ck => setOut out ck (if isNA kv.2 then .str "" else kv.2)
  | none => out

/-- The loop of lines 127-129 over the normalized-key dict. -/
def foldTmp (tmp : Row) (out : Row) : Row := tmp.foldl applyCanon out

/-- Python truthiness of a cell value (`if out["CITY1"] ...`). -/
def pyTruthy : Value → Bool
  | .na => true
  | .str s => !(s == "")
  | .int n => !(n == 0)
  | .float q => decide (q ≠ 0)

/-- Line 133 for one key: `out[k] = "" if pd.isna(out[k]) else str(out[k]).strip()`. -/
def strFix (out : Row) (k : String) : Row :=
  setOut out k
    (match getOut out k with
     | .na => .str ""
     | v => .str (pyStrip (pyStr v)))

/-- The seven keys of line 132. -/
def STR_KEYS : List String :=
  ["BANK", "IFSC", "BRANCH", "STATE", "ADDRESS", "CITY1", "CITY2"]

/-- `out["IFSC"].upper()` (line 136); at that point the value is a
string, the other cases are unreachable. -/
def pyUpperV : Value → Value
  | .str s => .str (pyUpper s)
  | v => v

/-- Lines 130-137: locality copy, string fixing, numeric coercion and
code upper-casing. -/
def postProcess (out0 : Row) : Row :=
  let out1 :=
    if pyTruthy (getOut out0 "CITY1") && !(pyTruthy (getOut out0 "CITY2")) then
      setOut out0 "CITY2" (getOut out0 "CITY1")
    else out0
  let out2 := STR_KEYS.foldl strFix out1
  let out3 := setOut out2 "STD CODE" (coerce_number_like (getOut out2 "STD CODE"))
  let out4 := setOut out3 "PHONE" (coerce_number_like (getOut out3 "PHONE"))
  setOut out4 "IFSC" (pyUpperV (getOut out4 "IFSC"))

/-- `to_output_row` (lines 124-137). -/
def to_output_row (raw : Row) : Row := postProcess (foldTmp (buildTmp raw) outInit)

/-! ### Spreadsheets, environment, errors and effects -/

/-- One sheet: header row and data rows (as read by `pd.read_excel`). -/
structure Sheet where
  header : List String
  rows : List (List Value)
  deriving DecidableEq, Repr, Inhabited

/-- A parsed workbook; `sheets = []` models `xls.sheet_names == []`. -/
structure Workbook where
  sheets : List Sheet
  deriving DecidableEq, Repr, Inhabited

/-- A Python exception: `HTTPException(code, detail)` or any other
exception class. -/
inductive PyErr where
  | http (code : Nat) (detail : String)
  | other
  deriving DecidableEq, Repr

/-- A candidate `{title, url}` from the listing page. -/
structure Candidate where
  title : String
  url : String
  deriving DecidableEq, Repr

/-- `_links_cache` (line 28): `{"ts": .., "data": ..}`. -/
structure LinkCache where
  ts : Nat
  data : List Candidate
  deriving DecidableEq, Repr

/-- One entry of `in_banks.json`; `codePfx` is the source's
`ifsc_prefix` field (the first four characters of the detected code). -/
structure IndexRecord where
  title : String
  url : String
  bank : String
  codePfx : String
  deriving DecidableEq, Repr

/-- The external collaborators, as a pure environment:
`pageLinks` is the outcome of scraping the listing page (transport
failure or extracted `{title, url}` items), `fetchFile url` is the
outcome of `stream_download` plus `pd.ExcelFile` parsing for one URL,
and `persisted` is the index file on disk if it exists and parses. -/
structure Env where
  pageLinks : Except PyErr (List Candidate)
  fetchFile : String → Except PyErr Workbook
  persisted : Option (List IndexRecord)

/-- One logged call to an external operation. -/
inductive Effect where
  | listLinks
  | download (url : String)
  | buildIndex
  deriving DecidableEq, Repr

/-- `CACHE_TTL_SECONDS = 6 * 60 * 60` (line 16). -/
def CACHE_TTL_SECONDS : Nat := 6 * 60 * 60

/-- `fetch_xls_links` (lines 30-43): scrape the page (black box), and
raise 404 if no spreadsheet links were found. -/
def fetch_xls_links (env : Env) : Except PyErr (List Candidate) :=
  match env.pageLinks with
  | .error e => .error e
  | .ok items =>
    if items = [] then .error (.http 404 "No Excel links found on RBI page.")
    else .ok items

/-- `get_cached_links` (lines 45-50): refetch when the cache is older
than the TTL or empty; on success replace both fields; return the
entries.  The result is `(outcome, new cache state, effect trace)`. -/
def get_cached_links (env : Env) (now : Nat) (c : LinkCache) :
    Except PyErr (List Candidate) × LinkCache × List Effect :=
  if CACHE_TTL_SECONDS < now - c.ts ∨ c.data = [] then
    match fetch_xls_links env with
    | .error e => (.error e, c, [.listLinks])
    | .ok items => (.ok items, ⟨now, items⟩, [.listLinks])
  else (.ok c.data, c, [])

/-! ### Index build -/

/-- `normalize_columns` (lines 70-73): strip every column name. -/
def normalizeSheet (s : Sheet) : Sheet := ⟨s.header.map pyStrip, s.rows⟩

/-- `row[col]`: the cell under column `col` of a header-indexed row. -/
def cellAt (header : List String) (r : List Value) (col : String) : Value :=
  match header.findIdx? (fun h => h == col) with
  | some i => r.getD i .na
  | none => .na

/-- `str(df.iloc[0][col]).strip().upper()` when `col` was detected, or
`""` when it was not (lines 161-162); reading row 0 of a sheet with no
data rows raises (`IndexError`, modelled as `PyErr.other`). -/
def firstRowVal (s : Sheet) (col? : Option String) : Except PyErr String :=
  match col? with
  | none => .ok ""
  | some c =>
    match s.rows.head? with
    | none => .error .other
    | some r => .ok (pyUpper (pyStrip (pyStr (cellAt s.header r c))))

/-- The per-candidate body of `build_index_file` (lines 150-164) after
a successful download/parse: returns `(bank, ifsc_prefix)`. -/
def recordFields (wb : Workbook) : Except PyErr (String × String) :=
  match wb.sheets with
  | [] => .ok ("", "")
  | s :: _ =>
    let s1 := normalizeSheet s
    match firstRowVal s1 (find_bank_column s1.header) with
    | .error e => .error e
    | .ok bank_val =>
      match firstRowVal s1 (find_ifsc_column s1.header) with
      | .error e => .error e
      | .ok ifsc_val =>
        .ok (bank_val,
             if 4 ≤ ifsc_val.data.length then ⟨ifsc_val.data.take 4⟩ else "")

/-- One index record per candidate: any exception in the download /
parse / sheet-access sequence is caught and yields empty fields
(lines 149-167). -/
def buildRecord (env : Env) (item : Candidate) : IndexRecord :=
  match (env.fetchFile item.url).bind recordFields with
  | .error _ => ⟨item.title, item.url, "", ""⟩
  | .ok bp => ⟨item.title, item.url, bp.1, bp.2⟩

/-- `build_index_file` (lines 140-170): one record per cached link, in
order; failures of the link listing itself propagate. -/
def build_index_file (env : Env) (now : Nat) (c : LinkCache) :
    Except PyErr (List IndexRecord) × LinkCache × List Effect :=
  match get_cached_links env now c with
  | (.error e, c1, t) => (.error e, c1, .buildIndex :: t)
  | (.ok items, c1, t) =>
    (.ok (items.map (buildRecord env)), c1,
     .buildIndex :: t ++ items.map (fun i => .download i.url))

/-- `load_index` (lines 172-179): return the persisted index if it
exists and parses, else build. -/
def load_index (env : Env) (now : Nat) (c : LinkCache) :
    Except PyErr (List IndexRecord) × LinkCache × List Effect :=
  match env.persisted with
  | some idx => (.ok idx, c, [])
  | none => build_index_file env now c

/-! ### Lookup flows -/

def msgBank : String := "No files matched the given bank."

def msgIfsc : String := "No rows found for the given IFSC."

/-- `pd.DataFrame.empty`: an axis of length zero. -/
def sheetIsEmpty (s : Sheet) : Bool :=
  s.rows.length == 0 || s.header.length == 0

/-- `df.fillna("")` on one record of `to_dict(orient="records")`. -/
def fillNA (v : Value) : Value :=
  match v with
  | .na => .str ""
  | v => v

/-- `df.fillna("").to_dict(orient="records")` on a sheet. -/
def recordsOf (s : Sheet) : List Row :=
  s.rows.map (fun r => s.header.zip (r.map fillNA))

/-- The index resolution predicate of `/by-bank` (lines 219, 223):
`query in (e.get("bank") or "").upper()`. -/
def bankMatch (query : String) (e : IndexRecord) : Bool :=
  strContains (pyUpper e.bank) query

/-- The `try` block of `/by-bank` (lines 228-245): download the
resolved file, read the first sheet, canonicalize every row;
`HTTPException` re-raises, any other exception becomes 404. -/
def bankFetch (env : Env) (entry : IndexRecord) : Except PyErr (List Row) :=
  let attempt : Except PyErr (List Row) :=
    match env.fetchFile entry.url with
    | .error e => .error e
    | .ok wb =>
      match wb.sheets with
      | [] => .error (.http 404 msgBank)
      | s :: _ =>
        if sheetIsEmpty s then .error (.http 404 msgBank)
        else .ok ((recordsOf (normalizeSheet s)).map to_output_row)
  match attempt with
  | .ok rows => .ok rows
  | .error (.http code d) => .error (.http code d)
  | .error .other => .error (.http 404 msgBank)

/-- `by_bank` (lines 203-245): reject a blank query, resolve against
the index with one rebuild-and-retry, then fetch the first matching
file. -/
def by_bank (env : Env) (now : Nat) (c : LinkCache) (bank : String) :
    Except PyErr (List Row) × LinkCache × List Effect :=
  let query := pyUpper (pyStrip bank)
  if query = "" then (.error (.http 404 msgBank), c, [])
  else
    match load_index env now c with
    | (.error e, c1, t1) => (.error e, c1, t1)
    | (.ok index, c1, t1) =>
      match index.filter (bankMatch query) with
      | entry :: _ => (bankFetch env entry, c1, t1 ++ [.download entry.url])
      | [] =>
        match build_index_file env now c1 with
        | (.error e, c2, t2) => (.error e, c2, t1 ++ t2)
        | (.ok idx2, c2, t2) =>
          match idx2.filter (bankMatch query) with
          | [] => (.error (.http 404 msgBank), c2, t1 ++ t2)
          | entry :: _ => (bankFetch env entry, c2, t1 ++ t2 ++ [.download entry.url])

/-- Does row `r` match the query code: `df[col].astype(str).str.upper() == code`. -/
def ifscRowMatch (header : List String) (col code : String) (r : List Value) : Bool :=
  pyUpper (pyStr (cellAt header r col)) == code

/-- Select the rows of `l` marked `true` in `mask` (`df[mask]`). -/
def selectMask {α : Type} : List α → List Bool → List α
  | x :: xs, true :: bs => x :: selectMask xs bs
  | _ :: xs, false :: bs => selectMask xs bs
  | _, _ => []

/-- Lines 281-288 of `/by-ifsc`, after the first sheet is loaded and
normalized: locate the code column, build the boolean mask of exact
matches, fail 404 when the column is missing or the mask is all-false,
else canonicalize exactly the selected rows. -/
def ifscSheetScan (code : String) (s : Sheet) : Except PyErr (List Row) :=
  match find_ifsc_column s.header with
  | none => .error (.http 404 msgIfsc)
  | some col =>
    let mask := s.rows.map (ifscRowMatch s.header col code)
    if mask.any id = false then .error (.http 404 msgIfsc)
    else
      .ok ((selectMask s.rows mask).map
             (fun r => to_output_row (s.header.zip (r.map fillNA))))

/-- The `try` block of `/by-ifsc` (lines 269-292). -/
def ifscFetch (env : Env) (entry : IndexRecord) (code : String) :
    Except PyErr (List Row) :=
  let attempt : Except PyErr (List Row) :=
    match env.fetchFile entry.url with
    | .error e => .error e
    | .ok wb =>
      match wb.sheets with
      | [] => .error (.http 404 msgIfsc)
      | s :: _ =>
        if sheetIsEmpty s then .error (.http 404 msgIfsc)
        else ifscSheetScan code (normalizeSheet s)
  match attempt with
  | .ok rows => .ok rows
  | .error (.http code2 d) => .error (.http code2 d)
  | .error .other => .error (.http 404 msgIfsc)

/-- `by_ifsc` (lines 247-292): enforce the length-11 precondition,
resolve by the 4-character code prefix with one rebuild-and-retry,
then search the first sheet for the exact code. -/
def by_ifsc (env : Env) (now : Nat) (c : LinkCache) (ifsc : String) :
    Except PyErr (List Row) × LinkCache × List Effect :=
  let code := pyUpper (pyStrip ifsc)
  if code.data.length < 11 then (.error (.http 404 msgIfsc), c, [])
  else
    let pfx : String := ⟨code.data.take 4⟩
    match load_index env now c with
    | (.error e, c1, t1) => (.error e, c1, t1)
    | (.ok index, c1, t1) =>
      match index.filter (fun e => e.codePfx == pfx) with
      | entry :: _ => (ifscFetch env entry code, c1, t1 ++ [.download entry.url])
      | [] =>
        match build_index_file env now c1 with
        | (.error e, c2, t2) => (.error e, c2, t1 ++ t2)
        | (.ok idx2, c2, t2) =>
          match idx2.filter (fun e => e.codePfx == pfx) with
          | [] => (.error (.http 404 msgIfsc), c2, t1 ++ t2)
          | entry :: _ => (ifscFetch env entry code, c2, t1 ++ t2 ++ [.download entry.url])

/-! ## Theorems -/

/-- Helper: the head of a non-empty filter is the first match. -/
theorem filter_eq_cons_find? {α : Type} (p : α → Bool) :
    ∀ (l : List α) (a : α) (as : List α), l.filter p = a :: as → l.find? p = some a := by
  intro l
  induction l with
  | nil => intro a as h; simp at h
  | cons x xs ih =>
    intro a as h
    by_cases hx : p x
    · rw [List.filter_cons_of_pos hx] at h
      injection h with h1 _
      rw [h1] at hx ⊢
      exact List.find?_cons_of_pos _ hx
    · rw [List.filter_cons_of_neg hx] at h
      rw [List.find?_cons_of_neg _ hx]
      exact ih a as h

/-- C4: the link cache refetches iff the cache is stale
(`now - ts > TTL`) or its entry list is empty (trace `[.listLinks]`
versus `[]`); on refetch success both timestamp and entries are
replaced together; on failure of the underlying list operation the
cached state is returned unchanged and the failure propagates;
otherwise the still-valid entries are returned. -/
theorem link_cache_policy (env : Env) (now : Nat) (st : LinkCache) :
    (¬ (CACHE_TTL_SECONDS < now - st.ts ∨ st.data = []) →
      get_cached_links env now st = (.ok st.data, st, [])) ∧
    ((CACHE_TTL_SECONDS < now - st.ts ∨ st.data = []) →
      (∀ e : PyErr, fetch_xls_links env = .error e →
        get_cached_links env now st = (.error e, st, [.listLinks])) ∧
      (∀ items : List Candidate, fetch_xls_links env = .ok items →
        get_cached_links env now st = (.ok items, ⟨now, items⟩, [.listLinks]))) := by
  constructor
  · intro h
    unfold get_cached_links
    rw [if_neg h]
  · intro h
    refine ⟨fun e he => ?_, fun items hi => ?_⟩
    · unfold get_cached_links
      rw [if_pos h, he]
    · unfold get_cached_links
      rw [if_pos h, hi]

/-- Witness for C4: an empty cache refetches and stores timestamp and
entries together. -/
theorem link_cache_policy_witness :
    get_cached_links ⟨.ok [⟨"t", "u"⟩], fun _ => .error .other, none⟩ 3 ⟨0, []⟩ =
      (.ok [⟨"t", "u"⟩], ⟨3, [⟨"t", "u"⟩]⟩, [.listLinks]) :=
  ((link_cache_policy ⟨.ok [⟨"t", "u"⟩], fun _ => .error .other, none⟩ 3 ⟨0, []⟩).2
    (Or.inr rfl)).2 [⟨"t", "u"⟩] rfl

/-- C2: the index build is total: for every candidate list it produces
exactly one record per candidate, in order (the result is precisely
`items.map (buildRecord env)`), and a candidate whose
download/parse/sheet-access sequence raises yields a record with empty
`bank` and empty code prefix instead of aborting the build. -/
theorem build_index_total (env : Env) (now : Nat) (c : LinkCache)
    (items : List Candidate) (c1 : LinkCache) (t : List Effect)
    (h : get_cached_links env now c = (.ok items, c1, t)) :
    (build_index_file env now c).1 = .ok (items.map (buildRecord env)) ∧
    (items.map (buildRecord env)).length = items.length ∧
    ∀ item : Candidate,
      (buildRecord env item).title = item.title ∧
      (buildRecord env item).url = item.url ∧
      ∀ e : PyErr, (env.fetchFile item.url).bind recordFields = .error e →
        buildRecord env item = ⟨item.title, item.url, "", ""⟩ := by
  refine ⟨?_, List.length_map _ _, fun item => ?_⟩
  · unfold build_index_file
    rw [h]
  · refine ⟨?_, ?_, fun e he => ?_⟩ <;> unfold buildRecord
    · cases hb : (env.fetchFile item.url).bind recordFields <;> simp [hb]
    · cases hb : (env.fetchFile item.url).bind recordFields <;> simp [hb]
    · rw [he]

/-- Witness for C2: a two-candidate build where every download fails
still yields one (empty-fielded) record per candidate. -/
theorem build_index_total_witness :
    (build_index_file ⟨.error .other, fun _ => .error .other, none⟩ 5
        ⟨5, [⟨"a", "ua"⟩, ⟨"b", "ub"⟩]⟩).1 =
      .ok ([⟨"a", "ua"⟩, ⟨"b", "ub"⟩].map
        (buildRecord ⟨.error .other, fun _ => .error .other, none⟩)) ∧
    buildRecord ⟨.error .other, fun _ => .error .other, none⟩ ⟨"a", "ua"⟩ =
      ⟨"a", "ua", "", ""⟩ :=
  ⟨(build_index_total ⟨.error .other, fun _ => .error .other, none⟩ 5
      ⟨5, [⟨"a", "ua"⟩, ⟨"b", "ub"⟩]⟩ [⟨"a", "ua"⟩, ⟨"b", "ub"⟩] _ _ rfl).1,
   ((build_index_total ⟨.error .other, fun _ => .error .other, none⟩ 5
      ⟨5, [⟨"a", "ua"⟩, ⟨"b", "ub"⟩]⟩ [⟨"a", "ua"⟩, ⟨"b", "ub"⟩] _ _ rfl).2.2
      ⟨"a", "ua"⟩).2.2 .other rfl⟩

/-- C3: both lookup flows reject invalid queries before resolution with
an empty effect trace (no downloader, link-lister or index-builder
call): a blank entity query and a trimmed upper-cased code shorter
than 11 characters both fail immediately with the flow's 404. -/
theorem lookup_guards (env : Env) (now : Nat) (c : LinkCache) :
    (∀ bank : String, pyUpper (pyStrip bank) = "" →
      by_bank env now c bank = (.error (.http 404 msgBank), c, [])) ∧
    (∀ ifsc : String, (pyUpper (pyStrip ifsc)).data.length < 11 →
      by_ifsc env now c ifsc = (.error (.http 404 msgIfsc), c, [])) := by
  constructor
  · intro bank h
    unfold by_bank
    simp [h]
  · intro ifsc h
    unfold by_ifsc
    rw [if_pos h]

/-- Witness for C3: a blank entity query and the short code
`"SHORT"` (also the empty code, length 0 < 11) are both rejected with
no effects. -/
theorem lookup_guards_witness :
    by_bank ⟨.error .other, fun _ => .error .other, none⟩ 0 ⟨0, []⟩ " " =
        (.error (.http 404 msgBank), ⟨0, []⟩, []) ∧
    by_ifsc ⟨.error .other, fun _ => .error .other, none⟩ 0 ⟨0, []⟩ "SHORT" =
        (.error (.http 404 msgIfsc), ⟨0, []⟩, []) :=
  ⟨(lookup_guards _ 0 _).1 " " (by decide),
   (lookup_guards _ 0 _).2 "SHORT" (by decide)⟩

/-- Helper for C7: a built record either has all-empty derived fields
or comes from a successful fetch and field extraction. -/
theorem buildRecord_cases (env : Env) (item : Candidate) :
    buildRecord env item = ⟨item.title, item.url, "", ""⟩ ∨
    ∃ (wb : Workbook) (bp : String × String),
      env.fetchFile item.url = .ok wb ∧ recordFields wb = .ok bp ∧
      buildRecord env item = ⟨item.title, item.url, bp.1, bp.2⟩ := by
  unfold buildRecord
  cases hf : env.fetchFile item.url with
  | error e => exact Or.inl rfl
  | ok wb =>
    have hred : (Except.ok wb : Except PyErr Workbook).bind recordFields =
        recordFields wb := rfl
    rw [hred]
    cases hrf : recordFields wb with
    | error e => exact Or.inl rfl
    | ok bp => exact Or.inr ⟨wb, bp, rfl, hrf, rfl⟩

/-- Helper for C7: the extracted code prefix is empty or the 4-char
slice of a detected value of length at least 4. -/
theorem recordFields_pfx (wb : Workbook) (bp : String × String)
    (hrf : recordFields wb = .ok bp) :
    bp.2 = "" ∨
    ∃ (s : Sheet) (v : String), wb.sheets.head? = some s ∧
      firstRowVal (normalizeSheet s)
        (find_ifsc_column (normalizeSheet s).header) = .ok v ∧
      4 ≤ v.data.length ∧ bp.2 = ⟨v.data.take 4⟩ := by
  unfold recordFields at hrf
  cases hs : wb.sheets with
  | nil =>
    simp only [hs] at hrf
    injection hrf with h1
    rw [← h1]
    exact Or.inl rfl
  | cons s ss =>
    simp only [hs] at hrf
    cases hbv : firstRowVal (normalizeSheet s)
        (find_bank_column (normalizeSheet s).header) with
    | error e =>
      simp only [hbv] at hrf
      exact absurd hrf (by simp)
    | ok bank_val =>
      simp only [hbv] at hrf
      cases hiv : firstRowVal (normalizeSheet s)
          (find_ifsc_column (normalizeSheet s).header) with
      | error e =>
        simp only [hiv] at hrf
        exact absurd hrf (by simp)
      | ok v =>
        simp only [hiv] at hrf
        injection hrf with h1
        by_cases hlen : 4 ≤ v.data.length
        · rw [if_pos hlen] at h1
          refine Or.inr ⟨s, v, rfl, hiv, hlen, ?_⟩
          rw [← h1]
        · rw [if_neg hlen] at h1
          rw [← h1]
          exact Or.inl rfl

/-- C7: every record produced by the index build has a code prefix
that is either empty or exactly 4 characters; a non-empty prefix is
the first 4 characters of the detected, trimmed, upper-cased code
value, which then has length at least 4. -/
theorem code_prefix_invariant (env : Env) (now : Nat) (c : LinkCache)
    (recs : List IndexRecord) (r : IndexRecord)
    (hb : (build_index_file env now c).1 = .ok recs) (hr : r ∈ recs) :
    (r.codePfx = "" ∨ r.codePfx.data.length = 4) ∧
    (r.codePfx ≠ "" →
      ∃ (item : Candidate) (wb : Workbook) (s : Sheet) (v : String),
        r = buildRecord env item ∧
        env.fetchFile item.url = .ok wb ∧
        wb.sheets.head? = some s ∧
        firstRowVal (normalizeSheet s)
          (find_ifsc_column (normalizeSheet s).header) = .ok v ∧
        4 ≤ v.data.length ∧ r.codePfx = ⟨v.data.take 4⟩) := by
  unfold build_index_file at hb
  rcases hgc : get_cached_links env now c with ⟨res, c1, t⟩
  rw [hgc] at hb
  cases res with
  | error e => exact absurd hb (by simp)
  | ok items =>
    have hrecs : recs = items.map (buildRecord env) := by
      have : (Except.ok (items.map (buildRecord env)) : Except PyErr _) = .ok recs := hb
      injection this with h1
      exact h1.symm
    subst hrecs
    rcases List.mem_map.1 hr with ⟨item, _, hbr⟩
    rcases buildRecord_cases env item with hcase | ⟨wb, bp, hf, hrf, hcase⟩
    · rw [← hbr, hcase]
      exact ⟨Or.inl rfl, fun hne => absurd rfl hne⟩
    · rcases recordFields_pfx wb bp hrf with hp | ⟨s, v, hs, hv, hlen, hp⟩
      · rw [← hbr, hcase]
        refine ⟨Or.inl hp, fun hne => absurd hp hne⟩
      · have hc2 : r.codePfx = bp.2 := by rw [← hbr, hcase]
        constructor
        · refine Or.inr ?_
          rw [hc2, hp]
          show (v.data.take 4).length = 4
          rw [List.length_take]
          exact Nat.min_eq_left hlen
        · intro _
          refine ⟨item, wb, s, v, hbr.symm, hf, hs, hv, hlen, ?_⟩
          rw [hc2, hp]

/-- Helper for C8: an exact role match also matches as a substring. -/
theorem self_contains (tok : String) : strContains tok tok = true := by
  unfold strContains
  cases h : tok.data with
  | nil => rfl
  | cons c t =>
    unfold listInfixOf
    have hpre : (c :: t).isPrefixOf (c :: t) = true := by
      have : ∀ l : List Char, l.isPrefixOf l = true := by
        intro l
        induction l with
        | nil => rfl
        | cons x xs ih => simp [List.isPrefixOf, ih]
      exact this _
    rw [hpre]
    rfl

/-- C8: both role finders use two-tier matching: whenever some column's
trimmed lower-cased form equals the role token exactly, an exact-match
column is returned (regardless of where substring-only matches sit);
with no exact match, the first column containing the token is returned;
with no qualifying column at all, nothing is returned. -/
theorem find_role_column_policy (cols : List String) :
    (((∃ e ∈ cols, pyLower (pyStrip e) = "bank") →
        ∃ r, find_bank_column cols = some r ∧ r ∈ cols ∧
          pyLower (pyStrip r) = "bank") ∧
      ((∀ e ∈ cols, pyLower (pyStrip e) ≠ "bank") →
        find_bank_column cols =
          (cols.filter (fun c => strContains (pyLower (pyStrip c)) "bank")).head?) ∧
      ((∀ e ∈ cols, strContains (pyLower (pyStrip e)) "bank" = false) →
        find_bank_column cols = none)) ∧
    (((∃ e ∈ cols, pyLower (pyStrip e) = "ifsc") →
        ∃ r, find_ifsc_column cols = some r ∧ r ∈ cols ∧
          pyLower (pyStrip r) = "ifsc") ∧
      ((∀ e ∈ cols, pyLower (pyStrip e) ≠ "ifsc") →
        find_ifsc_column cols =
          (cols.filter (fun c => strContains (pyLower (pyStrip c)) "ifsc")).head?) ∧
      ((∀ e ∈ cols, strContains (pyLower (pyStrip e)) "ifsc" = false) →
        find_ifsc_column cols = none)) := by
  constructor
  · unfold find_bank_column
    cases hx : cols.filter (fun c => pyLower (pyStrip c) == "bank") with
    | cons e es =>
      have hmem : e ∈ cols.filter (fun c => pyLower (pyStrip c) == "bank") := by
        rw [hx]; exact List.mem_cons_self e es
      have he := List.mem_filter.1 hmem
      refine ⟨fun _ => ⟨e, rfl, he.1, by simpa using he.2⟩, fun hno => ?_, fun hno => ?_⟩
      · exact absurd (by simpa using he.2) (hno e he.1)
      · have : pyLower (pyStrip e) = "bank" := by simpa using he.2
        have hc := hno e he.1
        rw [this, self_contains] at hc
        exact absurd hc (by simp)
    | nil =>
      refine ⟨fun ⟨e, he, hex⟩ => ?_, fun _ => rfl, fun hno => ?_⟩
      · have : e ∈ cols.filter (fun c => pyLower (pyStrip c) == "bank") :=
          List.mem_filter.2 ⟨he, by simp [hex]⟩
        rw [hx] at this
        exact absurd this (by simp)
      · rw [List.filter_eq_nil_iff.2 (fun c hc => by simp [hno c hc])]
        rfl
  · unfold find_ifsc_column
    cases hx : cols.filter (fun c => pyLower (pyStrip c) == "ifsc") with
    | cons e es =>
      have hmem : e ∈ cols.filter (fun c => pyLower (pyStrip c) == "ifsc") := by
        rw [hx]; exact List.mem_cons_self e es
      have he := List.mem_filter.1 hmem
      refine ⟨fun _ => ⟨e, rfl, he.1, by simpa using he.2⟩, fun hno => ?_, fun hno => ?_⟩
      · exact absurd (by simpa using he.2) (hno e he.1)
      · have : pyLower (pyStrip e) = "ifsc" := by simpa using he.2
        have hc := hno e he.1
        rw [this, self_contains] at hc
        exact absurd hc (by simp)
    | nil =>
      refine ⟨fun ⟨e, he, hex⟩ => ?_, fun _ => rfl, fun hno => ?_⟩
      · have : e ∈ cols.filter (fun c => pyLower (pyStrip c) == "ifsc") :=
          List.mem_filter.2 ⟨he, by simp [hex]⟩
        rw [hx] at this
        exact absurd this (by simp)
      · rw [List.filter_eq_nil_iff.2 (fun c hc => by simp [hno c hc])]
        rfl

/-- Witness for C8: with a substring-only column first and the exact
column second, the exact column wins. -/
theorem find_role_column_policy_witness :
    ∃ r, find_ifsc_column ["My IFSC Col", "ifsc"] = some r ∧
      r ∈ ["My IFSC Col", "ifsc"] ∧ pyLower (pyStrip r) = "ifsc" :=
  (find_role_column_policy ["My IFSC Col", "ifsc"]).2.1
    ⟨"ifsc", by decide, by decide⟩

/-- Helper for C5: `any id` over a mapped mask is `any` of the predicate. -/
theorem any_id_map {α : Type} (p : α → Bool) :
    ∀ l : List α, (l.map p).any id = l.any p := by
  intro l
  induction l with
  | nil => rfl
  | cons x xs ih => simp [ih]

/-- Helper for C5: selecting by the mask of a predicate is filtering. -/
theorem selectMask_map {α : Type} (p : α → Bool) :
    ∀ l : List α, selectMask l (l.map p) = l.filter p := by
  intro l
  induction l with
  | nil => rfl
  | cons x xs ih =>
    by_cases hx : p x
    · rw [List.map_cons, hx, List.filter_cons_of_pos hx]
      show x :: selectMask xs (xs.map p) = x :: xs.filter p
      rw [ih]
    · rw [List.map_cons, List.filter_cons_of_neg (by simp [hx])]
      have hx2 : p x = false := by simp [hx]
      rw [hx2]
      show selectMask xs (xs.map p) = xs.filter p
      exact ih

/-- C5: after the first sheet of the by-code flow is loaded, the scan
fails 404 when no code column is found or no row's upper-cased
code-column value equals the query; otherwise it returns the
canonicalized row for exactly the matching rows (all duplicates, no
others). -/
theorem by_code_exact_filter (code : String) (s : Sheet) :
    (find_ifsc_column s.header = none →
      ifscSheetScan code s = .error (.http 404 msgIfsc)) ∧
    ∀ col, find_ifsc_column s.header = some col →
      (s.rows.filter (ifscRowMatch s.header col code) = [] →
        ifscSheetScan code s = .error (.http 404 msgIfsc)) ∧
      (∀ r rs, s.rows.filter (ifscRowMatch s.header col code) = r :: rs →
        ifscSheetScan code s =
          .ok ((r :: rs).map
            (fun row => to_output_row (s.header.zip (row.map fillNA))))) := by
  constructor
  · intro h
    unfold ifscSheetScan
    rw [h]
  · intro col hcol
    have hmap : (s.rows.map (ifscRowMatch s.header col code)).any id =
        s.rows.any (ifscRowMatch s.header col code) := any_id_map _ _
    constructor
    · intro hnil
      unfold ifscSheetScan
      simp only [hcol]
      have hany : (s.rows.map (ifscRowMatch s.header col code)).any id = false := by
        rw [hmap, List.any_eq_false]
        exact fun x hx => by
          simpa using List.filter_eq_nil_iff.1 hnil x hx
      rw [if_pos hany]
    · intro r rs hcons
      unfold ifscSheetScan
      simp only [hcol]
      have hrmem : r ∈ s.rows.filter (ifscRowMatch s.header col code) := by
        rw [hcons]; exact List.mem_cons_self r rs
      have hr := List.mem_filter.1 hrmem
      have hany : (s.rows.map (ifscRowMatch s.header col code)).any id = true := by
        rw [hmap, List.any_eq_true]
        exact ⟨r, hr.1, hr.2⟩
      rw [if_neg (by simp [hany])]
      rw [selectMask_map, hcons]

/-- Witness for C5: a two-row sheet with one matching row (the query
appears once, the other row is excluded). -/
theorem by_code_exact_filter_witness :
    ifscSheetScan "ABCD0123456" ⟨["IFSC"], [[.str "XXXX0000000"], [.str "abcd0123456"]]⟩ =
      .ok [to_output_row [("IFSC", .str "abcd0123456")]] :=
  ((by_code_exact_filter "ABCD0123456"
      ⟨["IFSC"], [[.str "XXXX0000000"], [.str "abcd0123456"]]⟩).2 "IFSC"
    (by decide)).2 [.str "abcd0123456"] [] (by decide)

/-- Witness for C7: a concrete build over one failing candidate
produces a record whose prefix is empty (hence empty-or-length-4). -/
theorem code_prefix_invariant_witness :
    (⟨"a", "ua", "", ""⟩ : IndexRecord).codePfx = "" ∨
      (⟨"a", "ua", "", ""⟩ : IndexRecord).codePfx.data.length = 4 :=
  (code_prefix_invariant ⟨.error .other, fun _ => .error .other, none⟩ 5
    ⟨5, [⟨"a", "ua"⟩]⟩ [⟨"a", "ua", "", ""⟩] ⟨"a", "ua", "", ""⟩ rfl
    (by simp)).1

/-- C6: when the by-entity flow resolves against a loaded index, the
entry used is the first record (in index order) whose entity name
contains the query — witnessed by `find?` — and the result is the
canonicalization of every record of the resolved file's first sheet,
with no filtering by the original query. -/
theorem by_bank_first_match (env : Env) (now : Nat) (c : LinkCache) (bank : String)
    (idx : List IndexRecord) (entry : IndexRecord) (rest : List IndexRecord)
    (wb : Workbook) (s : Sheet) (ss : List Sheet)
    (hq : ¬ pyUpper (pyStrip bank) = "")
    (hpers : env.persisted = some idx)
    (hfil : idx.filter (bankMatch (pyUpper (pyStrip bank))) = entry :: rest)
    (hw : env.fetchFile entry.url = .ok wb)
    (hs : wb.sheets = s :: ss)
    (hne : sheetIsEmpty s = false) :
    by_bank env now c bank =
      (.ok ((recordsOf (normalizeSheet s)).map to_output_row), c,
        [Effect.download entry.url]) ∧
    idx.find? (bankMatch (pyUpper (pyStrip bank))) = some entry := by
  refine ⟨?_, filter_eq_cons_find? _ idx entry rest hfil⟩
  unfold by_bank
  rw [if_neg hq]
  unfold load_index
  simp only [hpers]
  simp only [hfil]
  have hbf : bankFetch env entry =
      .ok ((recordsOf (normalizeSheet s)).map to_output_row) := by
    unfold bankFetch
    simp only [hw, hs, hne]
    rfl
  rw [hbf]
  rfl

/-! ### Ordered-dict lemmas (shared by the canonicalization claims) -/

/-- Head step of `find?` when the head matches. -/
theorem find?_cons_true (pr : String × Value → Bool) (x : String × Value) (xs : Row)
    (h : pr x = true) : (x :: xs).find? pr = some x := by
  simp [List.find?_cons, h]

/-- Head step of `find?` when the head does not match. -/
theorem find?_cons_false (pr : String × Value → Bool) (x : String × Value) (xs : Row)
    (h : pr x = false) : (x :: xs).find? pr = xs.find? pr := by
  simp [List.find?_cons, h]

/-- Overwriting an existing key makes it findable with the new value. -/
theorem find?_map_overwrite (k : String) (v : Value) :
    ∀ o : Row, o.any (fun p => p.1 == k) = true →
      (o.map (fun p => if p.1 == k then (k, v) else p)).find?
        (fun p => p.1 == k) = some (k, v) := by
  intro o
  induction o with
  | nil => intro h; simp at h
  | cons p ps ih =>
    intro h
    rw [List.map_cons]
    by_cases hp : p.1 == k
    · rw [if_pos hp]
      exact find?_cons_true _ _ _ (by simp)
    · rw [if_neg hp]
      rw [find?_cons_false _ _ _ (by simpa using hp)]
      refine ih ?_
      rw [List.any_cons] at h
      simpa [hp] using h

/-- Appending a fresh key makes it findable with the new value. -/
theorem find?_append_single (k : String) (v : Value) (o : Row)
    (h : o.any (fun p => p.1 == k) = false) :
    (o ++ [(k, v)]).find? (fun p => p.1 == k) = some (k, v) := by
  rw [List.find?_append]
  have h0 : o.find? (fun p => p.1 == k) = none :=
    List.find?_eq_none.2 (fun x hx => List.any_eq_false.1 h x hx)
  rw [h0]
  simp

/-- Reading the key just written returns the written value. -/
theorem getOut_setOut_self (o : Row) (k : String) (v : Value) :
    getOut (setOut o k v) k = v := by
  unfold setOut getOut
  by_cases h : o.any (fun p => p.1 == k)
  · rw [if_pos h, find?_map_overwrite k v o h]
  · rw [if_neg h, find?_append_single k v o (by simpa only [Bool.not_eq_true] using h)]

/-- Writing one key does not change any other key's value. -/
theorem getOut_setOut_ne (o : Row) (k k' : String) (v : Value) (hne : k' ≠ k) :
    getOut (setOut o k v) k' = getOut o k' := by
  unfold setOut getOut
  by_cases h : o.any (fun p => p.1 == k)
  · rw [if_pos h]
    clear h
    induction o with
    | nil => rfl
    | cons p ps ih =>
      rw [List.map_cons]
      by_cases hp : p.1 == k
      · rw [if_pos hp]
        rw [find?_cons_false _ _ _ (by simp [Ne.symm hne]),
          find?_cons_false _ _ _ ?_]
        · exact ih
        · have hpk : p.1 = k := by simpa using hp
          simp [hpk, Ne.symm hne]
      · rw [if_neg hp]
        by_cases hp' : p.1 == k'
        · rw [find?_cons_true _ _ _ hp', find?_cons_true _ _ _ hp']
        · rw [find?_cons_false _ _ _ (by simpa using hp'),
            find?_cons_false _ _ _ (by simpa using hp')]
          exact ih
  · rw [if_neg h, List.find?_append]
    cases hf : o.find? (fun p => p.1 == k') with
    | some p => rfl
    | none =>
      have h1 : ([(k, v)] : Row).find? (fun p => p.1 == k') = none := by
        rw [find?_cons_false _ _ _ (by simp [Ne.symm hne])]
        rfl
      rw [h1]
      rfl

/-- Writing an existing key preserves the key list. -/
theorem keysOf_setOut_mem (o : Row) (k : String) (v : Value)
    (h : o.any (fun p => p.1 == k) = true) :
    keysOf (setOut o k v) = keysOf o := by
  unfold setOut keysOf
  rw [if_pos h, List.map_map]
  apply List.map_congr_left
  intro p _
  by_cases hp : p.1 == k
  · simp only [Function.comp]
    rw [if_pos hp]
    have : p.1 = k := by simpa using hp
    simp [this]
  · simp only [Function.comp]
    rw [if_neg hp]

/-- Any key of a written dict is the written key or an old key. -/
theorem keysOf_setOut_subset (o : Row) (k : String) (v : Value) :
    ∀ x ∈ keysOf (setOut o k v), x = k ∨ x ∈ keysOf o := by
  intro x hx
  unfold setOut keysOf at hx
  by_cases h : o.any (fun p => p.1 == k)
  · rw [if_pos h] at hx
    rcases List.mem_map.1 hx with ⟨p, hp, he⟩
    rcases List.mem_map.1 hp with ⟨p0, hp0, he0⟩
    by_cases hp0k : p0.1 == k
    · rw [if_pos hp0k] at he0
      left
      rw [← he, ← he0]
    · rw [if_neg hp0k] at he0
      right
      exact List.mem_map.2 ⟨p0, hp0, by rw [he0, he]⟩
  · rw [if_neg h, List.map_append] at hx
    rcases List.mem_append.1 hx with h1 | h2
    · exact Or.inr h1
    · left
      simpa using h2

/-- Witness for C6: a concrete index whose first matching record wins,
with all three sheet rows returned (no query filtering: the second
row's bank value does not contain the query). -/
theorem by_bank_first_match_witness :
    by_bank ⟨.error .other,
        fun _ => .ok ⟨[⟨["BANK", "IFSC"],
          [[.str "SBI", .str "sbin1"], [.str "OTHER", .str "oth1"]]⟩]⟩,
        some [⟨"t0", "u0", "HDFC", "HDFC"⟩, ⟨"t", "u", "SBI", "SBIN"⟩]⟩
      0 ⟨0, []⟩ "sb" =
      (.ok ((recordsOf (normalizeSheet ⟨["BANK", "IFSC"],
          [[.str "SBI", .str "sbin1"], [.str "OTHER", .str "oth1"]]⟩)).map
        to_output_row), ⟨0, []⟩, [Effect.download "u"]) ∧
    [(⟨"t0", "u0", "HDFC", "HDFC"⟩ : IndexRecord),
      ⟨"t", "u", "SBI", "SBIN"⟩].find? (bankMatch (pyUpper (pyStrip "sb"))) =
      some ⟨"t", "u", "SBI", "SBIN"⟩ :=
  by_bank_first_match _ 0 ⟨0, []⟩ "sb"
    [⟨"t0", "u0", "HDFC", "HDFC"⟩, ⟨"t", "u", "SBI", "SBIN"⟩]
    ⟨"t", "u", "SBI", "SBIN"⟩ []
    ⟨[⟨["BANK", "IFSC"],
      [[.str "SBI", .str "sbin1"], [.str "OTHER", .str "oth1"]]⟩]⟩
    ⟨["BANK", "IFSC"], [[.str "SBI", .str "sbin1"], [.str "OTHER", .str "oth1"]]⟩ []
    (by decide) rfl (by decide) rfl rfl (by decide)

/-! ### String and float-parse lemmas (for the coercion claim) -/

/-- `dropWhile` is idempotent. -/
theorem dropWhile_dropWhile {α : Type} (p : α → Bool) (l : List α) :
    (l.dropWhile p).dropWhile p = l.dropWhile p := by
  induction l with
  | nil => rfl
  | cons x xs ih =>
    by_cases hx : p x = true
    · rw [List.dropWhile_cons, if_pos hx]
      exact ih
    · rw [List.dropWhile_cons, if_neg hx, List.dropWhile_cons, if_neg hx]

/-- The head surviving `dropWhile` fails the predicate. -/
theorem dropWhile_head_false {α : Type} (p : α → Bool) :
    ∀ (l : List α) (c : α) (t : List α), l.dropWhile p = c :: t → p c = false := by
  intro l
  induction l with
  | nil => intro c t h; simp at h
  | cons x xs ih =>
    intro c t h
    rw [List.dropWhile_cons] at h
    by_cases hx : p x = true
    · rw [if_pos hx] at h
      exact ih c t h
    · rw [if_neg hx] at h
      injection h with h1 _
      rw [← h1]
      simpa using hx

/-- A stripped list has no leading whitespace. -/
theorem stripChars_dropWhile (l : List Char) :
    (stripChars l).dropWhile isSpace = stripChars l := by
  cases hc : stripChars l with
  | nil => rfl
  | cons c t =>
    have h2 : (l.dropWhile isSpace).reverse.dropWhile isSpace = (c :: t).reverse := by
      have h3 := congrArg List.reverse hc
      unfold stripChars at h3
      rw [List.reverse_reverse] at h3
      exact h3
    have hA : l.dropWhile isSpace =
        c :: (t ++ ((l.dropWhile isSpace).reverse.takeWhile isSpace).reverse) := by
      calc l.dropWhile isSpace
          = (l.dropWhile isSpace).reverse.reverse := (List.reverse_reverse _).symm
        _ = ((l.dropWhile isSpace).reverse.takeWhile isSpace ++
              (c :: t).reverse).reverse := by
            rw [← h2, List.takeWhile_append_dropWhile]
        _ = (c :: t).reverse.reverse ++
              ((l.dropWhile isSpace).reverse.takeWhile isSpace).reverse := by
            rw [List.reverse_append]
        _ = c :: (t ++ ((l.dropWhile isSpace).reverse.takeWhile isSpace).reverse) := by
            rw [List.reverse_reverse]
            rfl
    have hclean : isSpace c = false := dropWhile_head_false isSpace l c _ hA
    rw [List.dropWhile_cons, if_neg (by simp [hclean])]

/-- `str.strip()` is idempotent. -/
theorem stripChars_idem (l : List Char) :
    stripChars (stripChars l) = stripChars l := by
  have h1 : (stripChars l).dropWhile isSpace = stripChars l := stripChars_dropWhile l
  show (((stripChars l).dropWhile isSpace).reverse.dropWhile isSpace).reverse =
    stripChars l
  rw [h1]
  have h2 : (stripChars l).reverse.dropWhile isSpace = (stripChars l).reverse := by
    unfold stripChars
    rw [List.reverse_reverse]
    exact dropWhile_dropWhile _ _
  rw [h2, List.reverse_reverse]

/-- A non-dropped element survives `dropWhile`. -/
theorem mem_dropWhile_of_not {α : Type} (p : α → Bool) (c : α) (hc : p c = false) :
    ∀ l : List α, c ∈ l → c ∈ l.dropWhile p := by
  intro l
  induction l with
  | nil => intro h; exact absurd h (by simp)
  | cons x xs ih =>
    intro h
    rw [List.dropWhile_cons]
    by_cases hx : p x = true
    · rw [if_pos hx]
      rcases List.mem_cons.1 h with h1 | h2
      · rw [h1] at hc
        rw [hc] at hx
        exact absurd hx (by simp)
      · exact ih h2
    · rw [if_neg hx]
      exact h

/-- A non-whitespace character survives stripping. -/
theorem mem_stripChars (c : Char) (hc : isSpace c = false) (l : List Char)
    (h : c ∈ l) : c ∈ stripChars l := by
  unfold stripChars
  rw [List.mem_reverse]
  apply mem_dropWhile_of_not _ _ hc
  rw [List.mem_reverse]
  exact mem_dropWhile_of_not _ _ hc _ h

/-- A dotless split returns the whole list. -/
theorem dotSplit_none : ∀ (l a : List Char), dotSplit l = (a, none) → l = a := by
  intro l
  induction l with
  | nil =>
    intro a h
    exact congrArg Prod.fst h
  | cons x xs ih =>
    intro a h
    unfold dotSplit at h
    by_cases hx : x = '.'
    · rw [if_pos hx] at h
      injection h with _ h2
      exact absurd h2 (by simp)
    · rw [if_neg hx] at h
      injection h with h1 h2
      have hxs : xs = (dotSplit xs).1 := by
        apply ih
        rw [← h2]
      rw [← h1, ← hxs]

/-- A dotted split decomposes the list around the first dot. -/
theorem dotSplit_some : ∀ (l a b : List Char), dotSplit l = (a, some b) →
    l = a ++ '.' :: b := by
  intro l
  induction l with
  | nil =>
    intro a b h
    injection h with _ h2
    exact absurd h2 (by simp)
  | cons x xs ih =>
    intro a b h
    unfold dotSplit at h
    by_cases hx : x = '.'
    · rw [if_pos hx] at h
      injection h with h1 h2
      injection h2 with h2
      rw [← h1, ← h2, hx]
      rfl
    · rw [if_neg hx] at h
      injection h with h1 h2
      have hxs : xs = (dotSplit xs).1 ++ '.' :: b := by
        apply ih
        rw [← h2]
      rw [← h1, List.cons_append]
      exact congrArg (fun t => x :: t) hxs

/-- A list containing `'/'` never parses as a float. -/
theorem parseCore_slash (l : List Char) (h : ('/' : Char) ∈ l) :
    parseCore l = none := by
  have hmem : ('/' : Char) ∈
      (if l.head? = some '-' ∨ l.head? = some '+' then l.tail else l) := by
    by_cases hs : l.head? = some '-' ∨ l.head? = some '+'
    · rw [if_pos hs]
      cases l with
      | nil => exact absurd h (by simp)
      | cons c t =>
        rcases List.mem_cons.1 h with h1 | h2
        · exfalso
          rcases hs with hs | hs <;>
            · injection hs with hs2
              rw [hs2] at h1
              exact absurd h1 (by decide)
        · exact h2
    · rw [if_neg hs]
      exact h
  unfold parseCore
  cases hd : dotSplit (if l.head? = some '-' ∨ l.head? = some '+'
      then l.tail else l) with
  | mk a r =>
    cases r with
    | none =>
      have ha : ('/' : Char) ∈ a := by
        rw [← dotSplit_none _ a hd]
        exact hmem
      have hcond : ¬(a ≠ ([] : List Char) ∧ a.all Char.isDigit = true) := by
        intro hc
        have hdig := List.all_eq_true.1 hc.2 _ ha
        exact absurd hdig (by decide)
      simp only [hd]
      rw [if_neg hcond]
    | some b =>
      have hsplit := dotSplit_some _ a b hd
      rw [hsplit] at hmem
      have hcond : ¬((a ++ b) ≠ ([] : List Char) ∧
          a.all Char.isDigit = true ∧ b.all Char.isDigit = true) := by
        intro hc
        rcases List.mem_append.1 hmem with hma | hmb
        · have hdig := List.all_eq_true.1 hc.2.1 _ hma
          exact absurd hdig (by decide)
        · rcases List.mem_cons.1 hmb with h1 | h2
          · exact absurd h1 (by decide)
          · have hdig := List.all_eq_true.1 hc.2.2 _ h2
            exact absurd hdig (by decide)
      simp only [hd]
      rw [if_neg hcond]

/-- If a parsed list decomposes with digit fraction part and ends in
`.0`, the fraction part is exactly `['0']`. -/
theorem frac_part_dot0 (a b u : List Char)
    (hrev : (a ++ '.' :: b).reverse = '0' :: '.' :: u)
    (hdig : b.all Char.isDigit = true) : b = ['0'] := by
  rw [List.reverse_append, List.reverse_cons] at hrev
  cases hbr : b.reverse with
  | nil =>
    rw [hbr] at hrev
    simp at hrev
  | cons d ds =>
    rw [hbr] at hrev
    rw [List.cons_append, List.cons_append] at hrev
    injection hrev with h1 h2
    cases ds with
    | nil =>
      have hb := congrArg List.reverse hbr
      rw [List.reverse_reverse] at hb
      rw [hb, h1]
      rfl
    | cons e es =>
      rw [List.cons_append] at h2
      injection h2 with h3 _
      have hmem : e ∈ b := by
        rw [← List.mem_reverse, hbr]
        simp
      have hdig2 := List.all_eq_true.1 hdig _ hmem
      rw [h3] at hdig2
      exact absurd hdig2 (by decide)

/-- `mkNum` with fraction digits `['0']` is an integer. -/
theorem mkNum_den_zero (neg : Bool) (a : List Char) :
    (mkNum neg a ['0']).den = 1 := by
  have key : ∀ m : ℤ, (Rat.divInt (m * 10) 10).den = 1 := by
    intro m
    have h10 : (10 : ℤ) ≠ 0 := by decide
    have he : Rat.divInt (m * 10) 10 = Rat.divInt m 1 := by
      have h2 := @Rat.divInt_mul_right m 1 10 h10
      simpa using h2
    rw [he, Rat.divInt_one]
    exact Rat.den_intCast m
  cases neg with
  | false =>
    show (Rat.divInt (Int.ofNat (digitsVal a * 10)) (Int.ofNat 10)).den = 1
    have hofn : Int.ofNat (digitsVal a * 10) = Int.ofNat (digitsVal a) * 10 := rfl
    rw [hofn]
    exact key _
  | true =>
    show (Rat.divInt (-(Int.ofNat (digitsVal a * 10))) (Int.ofNat 10)).den = 1
    have hofn : -(Int.ofNat (digitsVal a * 10)) =
        (-(Int.ofNat (digitsVal a))) * 10 := by
      have h1 : Int.ofNat (digitsVal a * 10) = Int.ofNat (digitsVal a) * 10 := rfl
      rw [h1, Int.neg_mul]
    rw [hofn]
    exact key _

/-- A parse of a list ending in `.0` is integer-valued. -/
theorem parseCore_dot0_den (l u : List Char) (q : ℚ)
    (hrev : l.reverse = '0' :: '.' :: u)
    (hp : parseCore l = some q) : q.den = 1 := by
  unfold parseCore at hp
  have hshape : ∃ u2, (if l.head? = some '-' ∨ l.head? = some '+'
      then l.tail else l).reverse = '0' :: '.' :: u2 := by
    by_cases hs : l.head? = some '-' ∨ l.head? = some '+'
    · rw [if_pos hs]
      cases l with
      | nil => simp at hrev
      | cons c ts =>
        have hcs : c = '-' ∨ c = '+' := by
          rcases hs with hs | hs
          · injection hs with hs2
            exact Or.inl hs2
          · injection hs with hs2
            exact Or.inr hs2
        rw [List.reverse_cons] at hrev
        cases hts : ts.reverse with
        | nil =>
          rw [hts] at hrev
          simp at hrev
        | cons d ds =>
          rw [hts, List.cons_append] at hrev
          injection hrev with h1 h2
          cases ds with
          | nil =>
            exfalso
            rw [List.nil_append] at h2
            injection h2 with h3 _
            rcases hcs with hc | hc <;>
              · rw [hc] at h3
                exact absurd h3 (by decide)
          | cons e es =>
            rw [List.cons_append] at h2
            injection h2 with h3 h4
            refine ⟨es, ?_⟩
            show ts.reverse = '0' :: '.' :: es
            rw [hts, h1, h3]
    · rw [if_neg hs]
      exact ⟨u, hrev⟩
  obtain ⟨u2, hrev2⟩ := hshape
  cases hd : dotSplit (if l.head? = some '-' ∨ l.head? = some '+'
      then l.tail else l) with
  | mk a r =>
    simp only [hd] at hp
    cases r with
    | none =>
      exfalso
      replace hp : (if a ≠ ([] : List Char) ∧ a.all Char.isDigit = true
          then some (mkNum (l.head? == some '-') a []) else none) = some q := hp
      have heq := dotSplit_none _ a hd
      by_cases hcond : a ≠ ([] : List Char) ∧ a.all Char.isDigit = true
      · have hdot : ('.' : Char) ∈ a := by
          rw [← heq, ← List.mem_reverse, hrev2]
          simp
        have hdig := List.all_eq_true.1 hcond.2 _ hdot
        exact absurd hdig (by decide)
      · rw [if_neg hcond] at hp
        exact absurd hp (by simp)
    | some b =>
      replace hp : (if (a ++ b) ≠ ([] : List Char) ∧
            a.all Char.isDigit = true ∧ b.all Char.isDigit = true
          then some (mkNum (l.head? == some '-') a b) else none) = some q := hp
      have heq := dotSplit_some _ a b hd
      by_cases hcond : (a ++ b) ≠ ([] : List Char) ∧
          a.all Char.isDigit = true ∧ b.all Char.isDigit = true
      · rw [if_pos hcond] at hp
        injection hp with hp1
        have hb : b = ['0'] := by
          apply frac_part_dot0 a b u2 _ hcond.2.2
          rw [← heq]
          exact hrev2
        rw [← hp1, hb]
        exact mkNum_den_zero _ _
      · rw [if_neg hcond] at hp
        exact absurd hp (by simp)

/-- Truncating an integer-valued rational yields its numerator. -/
theorem pyTrunc_den_one (q : ℚ) (h : q.den = 1) : pyTrunc q = q.num := by
  unfold pyTrunc
  rw [h]
  exact Int.tdiv_one q.num

/-- `float()` ignores surrounding whitespace: parsing a stripped string
equals parsing the original. -/
theorem parseFloatStr_strip (s : String) :
    parseFloatStr (pyStrip s) = parseFloatStr s := by
  show parseCore (stripChars (stripChars s.data)) = parseCore (stripChars s.data)
  rw [stripChars_idem]

/-- Counterexample for C1 as stated: inside `to_output_row`, the
area-dial-code value `"11.0"` is coerced to the Python int `11`, not to
the string `"11"`. -/
theorem coerce_renders_int_counterexample :
    getOut (to_output_row [("STD CODE", .str "11.0")]) "STD CODE" = .int 11 ∧
    getOut (to_output_row [("STD CODE", .str "11.0")]) "STD CODE" ≠ .str "11" := by
  decide

/-- C1 (amended): a missing value yields `""`; a value whose float
parse is integer-valued is rendered as the Python int of that value
(not a string); any other value keeps its trimmed string form as-is. -/
theorem coerce_number_like_amended (x : Value) :
    (isNA x = true → coerce_number_like x = .str "") ∧
    (∀ q : ℚ, pyFloat x = some q → q.den = 1 →
      coerce_number_like x = .int q.num) ∧
    ((∀ q : ℚ, pyFloat x = some q → q.den ≠ 1) → isNA x = false →
      coerce_number_like x = .str (pyStrip (pyStr x))) := by
  refine ⟨?_, ?_, ?_⟩
  · intro h
    cases x with
    | na => rfl
    | str s => exact absurd h (by simp [isNA])
    | int n => exact absurd h (by simp [isNA])
    | float q => exact absurd h (by simp [isNA])
  · intro q hq hden
    have hna : isNA x = false := by
      cases x with
      | na => exact absurd hq (by simp [pyFloat])
      | str s => rfl
      | int n => rfl
      | float qf => rfl
    unfold coerce_number_like
    rw [if_neg (by simp [hna])]
    simp only [hq, hden, if_pos]
    exact congrArg Value.int (pyTrunc_den_one q hden)
  · intro hnd hna
    cases x with
    | na => simp [isNA] at hna
    | int n =>
      exact absurd (Rat.den_intCast n) (hnd _ rfl)
    | float qf =>
      have hden := hnd qf rfl
      unfold coerce_number_like
      rw [if_neg (by simp [isNA])]
      simp only [pyFloat, if_neg hden]
      have hparse : parseFloatStr (pyStrip (pyStr (Value.float qf))) = none := by
        show parseCore (stripChars (stripChars (pyStr (Value.float qf)).data)) = none
        rw [stripChars_idem]
        apply parseCore_slash
        apply mem_stripChars _ (by decide)
        show ('/' : Char) ∈ (floatRepr qf).data
        unfold floatRepr
        rw [if_neg hden, String.data_append, String.data_append]
        refine List.mem_append.2 (Or.inl (List.mem_append.2 (Or.inr ?_)))
        show ('/' : Char) ∈ ("/" : String).data
        decide
      cases he : endsWithDot0 (pyStrip (pyStr (Value.float qf))) with
      | true => simp [he, hparse]
      | false => simp [he]
    | str s0 =>
      unfold coerce_number_like
      rw [if_neg (by simp [isNA])]
      cases hq : parseFloatStr s0 with
      | none =>
        simp only [pyFloat, hq]
        have hq2 : parseFloatStr (pyStrip s0) = none := by
          rw [parseFloatStr_strip]
          exact hq
        cases he : endsWithDot0 (pyStrip (pyStr (Value.str s0))) with
        | true =>
          have he2 : endsWithDot0 (pyStrip s0) = true := he
          simp [pyStr, he2, hq2]
        | false =>
          have he2 : endsWithDot0 (pyStrip s0) = false := he
          simp [pyStr, he2]
      | some q =>
        have hden : q.den ≠ 1 := hnd q (by simp [pyFloat, hq])
        simp only [pyFloat, hq, if_neg hden]
        cases he : endsWithDot0 (pyStrip (pyStr (Value.str s0))) with
        | true =>
          exfalso
          have he2 : endsWithDot0 (pyStrip s0) = true := he
          have hq2 : parseCore (stripChars s0.data) = some q := hq
          unfold endsWithDot0 at he2
          split at he2
          · next heq =>
              exact hden (parseCore_dot0_den (stripChars s0.data) _ q heq hq2)
          · exact absurd he2 (by simp)
        | false =>
          have he2 : endsWithDot0 (pyStrip s0) = false := he
          simp [pyStr, he2]

/-- Witness for C1 (amended): the string `"11.0"` parses as the
integer-valued float 11 and is coerced to the Python int `11`. -/
theorem coerce_number_like_amended_witness :
    coerce_number_like (Value.str "11.0") = Value.int 11 := by
  have h := (coerce_number_like_amended (Value.str "11.0")).2.1
    (mkNum false ['1', '1'] ['0']) rfl (by decide)
  rw [h]
  decide

/-! ### Canonicalization lemmas (for the output-shape claims) -/

/-- Reading any key of an all-empty dict gives the empty string. -/
theorem getOut_mapconst : ∀ (ks : List String) (k : String),
    getOut (ks.map (fun k0 => (k0, Value.str ""))) k = .str "" := by
  intro ks
  induction ks with
  | nil => intro k; rfl
  | cons k0 kt ih =>
    intro k
    rw [List.map_cons]
    unfold getOut
    by_cases h : ((k0, Value.str "") : String × Value).1 == k
    · rw [find?_cons_true _ _ _ h]
    · rw [find?_cons_false _ _ _ (by simpa using h)]
      exact ih k

/-- Every target of the canonicalization table is an output key. -/
theorem canon_target (lk ck : String) (h : canonLookup lk = some ck) :
    ck ∈ OUT_KEYS := by
  unfold canonLookup at h
  cases hf : CANON_MAP.find? (fun p => p.1 == lk) with
  | none => rw [hf] at h; exact absurd h (by simp)
  | some p =>
    rw [hf] at h
    have hp2 : p.2 = ck := by simpa using h
    have hmem := List.mem_of_find?_eq_some hf
    have hall : ∀ q ∈ CANON_MAP, q.2 ∈ OUT_KEYS := by decide
    rw [← hp2]
    exact hall p hmem

/-- A present key satisfies the `any` guard of a dict write. -/
theorem any_key (o : Row) (k : String) (h : k ∈ keysOf o) :
    o.any (fun p => p.1 == k) = true := by
  rcases List.mem_map.1 h with ⟨p, hp, he⟩
  exact List.any_eq_true.2 ⟨p, hp, by simp [he]⟩

/-- The canonical-field loop never touches a field no entry maps to. -/
theorem getOut_foldTmp_not_target (k : String) :
    ∀ (tmp out : Row), (∀ p ∈ tmp, canonLookup p.1 ≠ some k) →
      getOut (foldTmp tmp out) k = getOut out k := by
  intro tmp
  induction tmp with
  | nil => intro out _; rfl
  | cons p ps ih =>
    intro out h
    rw [show foldTmp (p :: ps) out = foldTmp ps (applyCanon out p) from rfl]
    rw [ih _ (fun q hq => h q (List.mem_cons_of_mem p hq))]
    unfold applyCanon
    cases hc : canonLookup p.1 with
    | none => rfl
    | some ck =>
      have hneq : k ≠ ck := by
        intro hkc
        exact h p (List.mem_cons_self _ _) (by rw [hc, hkc])
      exact getOut_setOut_ne _ _ _ _ hneq

/-- Every key of the normalized-key dict comes from a raw key. -/
theorem buildTmp_keys : ∀ (raw acc : Row) (p : String × Value),
    p ∈ raw.foldl (fun a kv => setOut a (normKey kv.1) kv.2) acc →
    p.1 ∈ keysOf acc ∨ ∃ kv ∈ raw, normKey kv.1 = p.1 := by
  intro raw
  induction raw with
  | nil =>
    intro acc p h
    exact Or.inl (List.mem_map.2 ⟨p, h, rfl⟩)
  | cons kv t ih =>
    intro acc p h
    rw [List.foldl_cons] at h
    rcases ih (setOut acc (normKey kv.1) kv.2) p h with h1 | ⟨kv2, hkv2, he⟩
    · rcases keysOf_setOut_subset acc (normKey kv.1) kv.2 p.1 h1 with h2 | h2
      · exact Or.inr ⟨kv, List.mem_cons_self _ _, h2.symm⟩
      · exact Or.inl h2
    · exact Or.inr ⟨kv2, List.mem_cons_of_mem _ hkv2, he⟩

/-- The per-key string fixing keeps empty fields empty. -/
theorem strfold_empty : ∀ (keys : List String) (out : Row) (k : String),
    getOut out k = .str "" → getOut (keys.foldl strFix out) k = .str "" := by
  intro keys
  induction keys with
  | nil => intro out k h; exact h
  | cons kk ks ih =>
    intro out k h
    rw [List.foldl_cons]
    apply ih
    by_cases hkk : kk = k
    · subst hkk
      unfold strFix
      rw [getOut_setOut_self, h]
      decide
    · unfold strFix
      rw [getOut_setOut_ne _ _ _ _ (fun hh => hkk hh.symm)]
      exact h

/-- The post-mapping stages keep a field empty, provided the locality
copy cannot populate it. -/
theorem postProcess_empty_at (out0 : Row) (k : String)
    (h0 : getOut out0 k = .str "")
    (hcity : k = "CITY2" → getOut out0 "CITY1" = .str "") :
    getOut (postProcess out0) k = .str "" := by
  have h1 : getOut (if pyTruthy (getOut out0 "CITY1") &&
        !(pyTruthy (getOut out0 "CITY2")) then
      setOut out0 "CITY2" (getOut out0 "CITY1") else out0) k = Value.str "" := by
    by_cases hc2 : k = "CITY2"
    · subst hc2
      rw [hcity rfl]
      rw [if_neg (by simp [pyTruthy])]
      exact h0
    · by_cases hcond : (pyTruthy (getOut out0 "CITY1") &&
          !(pyTruthy (getOut out0 "CITY2"))) = true
      · rw [if_pos hcond, getOut_setOut_ne _ _ _ _ hc2]
        exact h0
      · rw [if_neg hcond]
        exact h0
  have h2 : getOut (STR_KEYS.foldl strFix
      (if pyTruthy (getOut out0 "CITY1") && !(pyTruthy (getOut out0 "CITY2")) then
        setOut out0 "CITY2" (getOut out0 "CITY1") else out0)) k = Value.str "" :=
    strfold_empty _ _ _ h1
  unfold postProcess
  by_cases hif : k = "IFSC"
  · subst hif
    rw [getOut_setOut_self,
        getOut_setOut_ne _ _ _ _ (show ("IFSC" : String) ≠ "PHONE" by decide),
        getOut_setOut_ne _ _ _ _ (show ("IFSC" : String) ≠ "STD CODE" by decide),
        h2]
    rfl
  · rw [getOut_setOut_ne _ _ _ _ hif]
    by_cases hph : k = "PHONE"
    · subst hph
      rw [getOut_setOut_self,
          getOut_setOut_ne _ _ _ _ (show ("PHONE" : String) ≠ "STD CODE" by decide),
          h2]
      decide
    · rw [getOut_setOut_ne _ _ _ _ hph]
      by_cases hstd : k = "STD CODE"
      · subst hstd
        rw [getOut_setOut_self, h2]
        decide
      · rw [getOut_setOut_ne _ _ _ _ hstd]
        exact h2

/-- A field that no raw key maps to (directly, or via the locality
copy) ends up empty. -/
theorem unpopulated_empty (raw : Row) (k : String)
    (h1 : ∀ kv ∈ raw, canonLookup (normKey kv.1) ≠ some k)
    (h2 : k = "CITY2" → ∀ kv ∈ raw, canonLookup (normKey kv.1) ≠ some "CITY1") :
    getOut (to_output_row raw) k = .str "" := by
  unfold to_output_row
  apply postProcess_empty_at
  · rw [getOut_foldTmp_not_target k (buildTmp raw) outInit ?_]
    · exact getOut_mapconst OUT_KEYS k
    · intro p hp
      rcases buildTmp_keys raw [] p hp with hk | ⟨kv, hkv, he⟩
      · exact absurd hk (by simp [keysOf])
      · rw [← he]
        exact h1 kv hkv
  · intro hc2
    rw [getOut_foldTmp_not_target "CITY1" (buildTmp raw) outInit ?_]
    · exact getOut_mapconst OUT_KEYS "CITY1"
    · intro p hp
      rcases buildTmp_keys raw [] p hp with hk | ⟨kv, hkv, he⟩
      · exact absurd hk (by simp [keysOf])
      · rw [← he]
        exact h2 hc2 kv hkv

/-- The canonical-field loop preserves the key list. -/
theorem keysOf_foldTmp : ∀ (tmp out : Row), keysOf out = OUT_KEYS →
    keysOf (foldTmp tmp out) = OUT_KEYS := by
  intro tmp
  induction tmp with
  | nil => intro out h; exact h
  | cons p ps ih =>
    intro out h
    rw [show foldTmp (p :: ps) out = foldTmp ps (applyCanon out p) from rfl]
    apply ih
    unfold applyCanon
    cases hc : canonLookup p.1 with
    | none => exact h
    | some ck =>
      rw [keysOf_setOut_mem]
      · exact h
      · apply any_key
        rw [h]
        exact canon_target p.1 ck hc

/-- The post-mapping stages preserve the key list. -/
theorem keysOf_postProcess (out : Row) (h : keysOf out = OUT_KEYS) :
    keysOf (postProcess out) = OUT_KEYS := by
  have hks : ∀ (keys : List String) (o : Row), keysOf o = OUT_KEYS →
      (∀ kk ∈ keys, kk ∈ OUT_KEYS) →
      keysOf (keys.foldl strFix o) = OUT_KEYS := by
    intro keys
    induction keys with
    | nil => intro o ho _; exact ho
    | cons kk ks ih =>
      intro o ho hmem
      rw [List.foldl_cons]
      apply ih
      · unfold strFix
        rw [keysOf_setOut_mem]
        · exact ho
        · apply any_key
          rw [ho]
          exact hmem kk (List.mem_cons_self _ _)
      · intro x hx
        exact hmem x (List.mem_cons_of_mem _ hx)
  have h1 : keysOf (if pyTruthy (getOut out "CITY1") &&
      !(pyTruthy (getOut out "CITY2")) then
        setOut out "CITY2" (getOut out "CITY1") else out) = OUT_KEYS := by
    by_cases hc : (pyTruthy (getOut out "CITY1") &&
        !(pyTruthy (getOut out "CITY2"))) = true
    · rw [if_pos hc, keysOf_setOut_mem]
      · exact h
      · apply any_key
        rw [h]
        decide
    · rw [if_neg hc]
      exact h
  have h2 := hks STR_KEYS _ h1 (by decide)
  unfold postProcess
  rw [keysOf_setOut_mem, keysOf_setOut_mem, keysOf_setOut_mem]
  · exact h2
  · apply any_key
    rw [h2]
    decide
  · apply any_key
    rw [keysOf_setOut_mem]
    · rw [h2]
      decide
    · apply any_key
      rw [h2]
      decide
  · apply any_key
    rw [keysOf_setOut_mem, keysOf_setOut_mem]
    · rw [h2]
      decide
    · apply any_key
      rw [h2]
      decide
    · apply any_key
      rw [keysOf_setOut_mem]
      · rw [h2]
        decide
      · apply any_key
        rw [h2]
        decide

/-- C9: for every raw row, the canonicalized OutputRow has exactly the
nine named fields, in the fixed source order `OUT_KEYS`; any field not
populated from the raw row (directly, or via the locality copy for the
second locality field) is the empty string. -/
theorem output_row_shape (raw : Row) :
    keysOf (to_output_row raw) = OUT_KEYS ∧
    (to_output_row raw).length = 9 ∧
    (∀ k, k ∈ OUT_KEYS →
      (∀ kv ∈ raw, canonLookup (normKey kv.1) ≠ some k) →
      (k = "CITY2" → ∀ kv ∈ raw, canonLookup (normKey kv.1) ≠ some "CITY1") →
      getOut (to_output_row raw) k = .str "") := by
  have hkeys : keysOf (to_output_row raw) = OUT_KEYS := by
    unfold to_output_row
    apply keysOf_postProcess
    apply keysOf_foldTmp
    decide
  refine ⟨hkeys, ?_, fun k _ ha hb => unpopulated_empty raw k ha hb⟩
  have hlen : (to_output_row raw).length = (keysOf (to_output_row raw)).length :=
    (List.length_map _ _).symm
  rw [hlen, hkeys]
  rfl

/-- Witness for C9: a row with one unrecognized key yields the
nine-field shape with an empty entity field. -/
theorem output_row_shape_witness :
    keysOf (to_output_row [("foo", .str "x")]) = OUT_KEYS ∧
    getOut (to_output_row [("foo", .str "x")]) "BANK" = .str "" :=
  ⟨(output_row_shape [("foo", .str "x")]).1,
   (output_row_shape [("foo", .str "x")]).2.2 "BANK" (by decide) (by decide)
     (by decide)⟩

/-- Filtering commutes with a key-preserving overwrite map. -/
theorem filter_map_comm {α : Type} (f : α → α) (q : α → Bool)
    (hq : ∀ x, q (f x) = q x) :
    ∀ l : List α, (l.map f).filter q = (l.filter q).map f := by
  intro l
  induction l with
  | nil => rfl
  | cons x xs ih =>
    rw [List.map_cons]
    by_cases hx : q x = true
    · rw [List.filter_cons_of_pos (by rw [hq]; exact hx),
        List.filter_cons_of_pos hx, List.map_cons, ih]
    · rw [List.filter_cons_of_neg (by rw [hq x]; exact hx),
        List.filter_cons_of_neg hx, ih]

/-- Writing a known key commutes with dropping unknown keys. -/
theorem setOut_filter_known (acc : Row) (nk : String) (v : Value)
    (hk : (canonLookup nk).isSome = true) :
    (setOut acc nk v).filter (fun p => (canonLookup p.1).isSome) =
      setOut (acc.filter (fun p => (canonLookup p.1).isSome)) nk v := by
  unfold setOut
  by_cases h : acc.any (fun p => p.1 == nk)
  · rw [if_pos h]
    have h2 : (acc.filter (fun p => (canonLookup p.1).isSome)).any
        (fun p => p.1 == nk) = true := by
      rcases List.any_eq_true.1 h with ⟨p, hp, hpk⟩
      refine List.any_eq_true.2 ⟨p, List.mem_filter.2 ⟨hp, ?_⟩, hpk⟩
      have hpe : p.1 = nk := by simpa using hpk
      show (canonLookup p.1).isSome = true
      rw [hpe]
      exact hk
    rw [if_pos h2]
    apply filter_map_comm
    intro p
    by_cases hp : p.1 == nk
    · rw [if_pos hp]
      have hpe : p.1 = nk := by simpa using hp
      show (canonLookup nk).isSome = (canonLookup p.1).isSome
      rw [hpe]
    · rw [if_neg hp]
  · rw [if_neg h]
    have h2 : ¬ (acc.filter (fun p => (canonLookup p.1).isSome)).any
        (fun p => p.1 == nk) = true := by
      intro hc
      rcases List.any_eq_true.1 hc with ⟨p, hp, hpk⟩
      exact absurd (List.any_eq_true.2 ⟨p, (List.mem_filter.1 hp).1, hpk⟩) h
    rw [if_neg h2, List.filter_append]
    congr 1
    simp [hk]

/-- Writing an unknown key disappears under dropping unknown keys. -/
theorem setOut_filter_unknown (acc : Row) (nk : String) (v : Value)
    (hk : (canonLookup nk).isSome = false) :
    (setOut acc nk v).filter (fun p => (canonLookup p.1).isSome) =
      acc.filter (fun p => (canonLookup p.1).isSome) := by
  unfold setOut
  by_cases h : acc.any (fun p => p.1 == nk)
  · rw [if_pos h]
    have hmap : ∀ l : Row,
        (l.map (fun p => if p.1 == nk then (nk, v) else p)).filter
            (fun p => (canonLookup p.1).isSome) =
          l.filter (fun p => (canonLookup p.1).isSome) := by
      intro l
      induction l with
      | nil => rfl
      | cons p ps ih =>
        rw [List.map_cons]
        by_cases hp : p.1 == nk
        · rw [if_pos hp]
          have hpe : p.1 = nk := by simpa using hp
          rw [List.filter_cons, List.filter_cons,
            if_neg (show ¬(canonLookup nk).isSome = true by simp [hk]),
            if_neg (show ¬(canonLookup p.1).isSome = true by simp [hpe, hk])]
          exact ih
        · rw [if_neg hp]
          by_cases hq : (canonLookup p.1).isSome = true
          · rw [List.filter_cons, List.filter_cons, if_pos hq, if_pos hq, ih]
          · rw [List.filter_cons, List.filter_cons, if_neg hq, if_neg hq, ih]
    exact hmap acc
  · rw [if_neg h, List.filter_append]
    rw [List.filter_cons, if_neg (show ¬(canonLookup nk).isSome = true by simp [hk])]
    simp

/-- Building the normalized-key dict commutes with dropping raw keys
that are not in the canonicalization table. -/
theorem buildTmp_filter : ∀ (raw acc : Row),
    (raw.filter (fun kv => (canonLookup (normKey kv.1)).isSome)).foldl
        (fun a kv => setOut a (normKey kv.1) kv.2)
        (acc.filter (fun p => (canonLookup p.1).isSome)) =
      (raw.foldl (fun a kv => setOut a (normKey kv.1) kv.2) acc).filter
        (fun p => (canonLookup p.1).isSome) := by
  intro raw
  induction raw with
  | nil => intro acc; rfl
  | cons kv t ih =>
    intro acc
    by_cases hk : (canonLookup (normKey kv.1)).isSome = true
    · rw [List.filter_cons, if_pos hk, List.foldl_cons, List.foldl_cons,
        ← setOut_filter_known acc (normKey kv.1) kv.2 hk]
      exact ih (setOut acc (normKey kv.1) kv.2)
    · rw [List.filter_cons, if_neg hk, List.foldl_cons,
        ← setOut_filter_unknown acc (normKey kv.1) kv.2
          (by simpa using hk)]
      exact ih (setOut acc (normKey kv.1) kv.2)

/-- The canonical-field loop ignores entries with unknown keys. -/
theorem foldTmp_filter : ∀ (tmp out : Row),
    foldTmp tmp out =
      foldTmp (tmp.filter (fun p => (canonLookup p.1).isSome)) out := by
  intro tmp
  induction tmp with
  | nil => intro out; rfl
  | cons p ps ih =>
    intro out
    cases hc : canonLookup p.1 with
    | some ck =>
      rw [List.filter_cons, if_pos (show (canonLookup p.1).isSome = true by rw [hc]; rfl)]
      rw [show foldTmp (p :: ps) out = foldTmp ps (applyCanon out p) from rfl]
      rw [show foldTmp (p :: ps.filter (fun p => (canonLookup p.1).isSome)) out =
        foldTmp (ps.filter (fun p => (canonLookup p.1).isSome))
          (applyCanon out p) from rfl]
      exact ih (applyCanon out p)
    | none =>
      rw [List.filter_cons,
        if_neg (show ¬(canonLookup p.1).isSome = true by rw [hc]; simp)]
      rw [show foldTmp (p :: ps) out = foldTmp ps (applyCanon out p) from rfl]
      have hid : applyCanon out p = out := by
        unfold applyCanon
        rw [hc]
      rw [hid]
      exact ih out

/-- C10: raw keys whose trimmed lower-cased form is not in the
canonicalization table contribute nothing to the OutputRow (filtering
them out of the raw row leaves the result unchanged), and every
non-empty output field originates from some raw key mapping to that
field, or — for the second locality field — to the first locality
field via the copy rule. -/
theorem unknown_keys_no_effect (raw : Row) :
    to_output_row raw =
      to_output_row (raw.filter (fun kv => (canonLookup (normKey kv.1)).isSome)) ∧
    ∀ k, k ∈ OUT_KEYS → getOut (to_output_row raw) k ≠ .str "" →
      ∃ kv ∈ raw, canonLookup (normKey kv.1) = some k ∨
        (k = "CITY2" ∧ canonLookup (normKey kv.1) = some "CITY1") := by
  constructor
  · unfold to_output_row
    have h2 : buildTmp (raw.filter (fun kv => (canonLookup (normKey kv.1)).isSome)) =
        (buildTmp raw).filter (fun p => (canonLookup p.1).isSome) :=
      buildTmp_filter raw []
    rw [h2, foldTmp_filter (buildTmp raw) outInit]
  · intro k hk hne
    by_contra hcon
    push_neg at hcon
    apply hne
    apply unpopulated_empty
    · intro kv hkv
      exact (hcon kv hkv).1
    · intro hc2 kv hkv
      intro hsome
      exact (hcon kv hkv).2 hc2 hsome

/-- Witness for C10: an unrecognized key is dropped without changing
the result, and the populated entity field traces back to the raw
`"bank"` key. -/
theorem unknown_keys_no_effect_witness :
    to_output_row [("junk", .str "x"), ("bank", .str "B")] =
      to_output_row ([("junk", .str "x"), ("bank", .str "B")].filter
        (fun kv => (canonLookup (normKey kv.1)).isSome)) ∧
    ∃ kv ∈ [("junk", Value.str "x"), ("bank", Value.str "B")],
      canonLookup (normKey kv.1) = some "BANK" ∨
        ("BANK" = "CITY2" ∧ canonLookup (normKey kv.1) = some "CITY1") :=
  ⟨(unknown_keys_no_effect [("junk", .str "x"), ("bank", .str "B")]).1,
   (unknown_keys_no_effect [("junk", .str "x"), ("bank", .str "B")]).2 "BANK"
     (by decide) (by decide)⟩

end RbiApi
